import Mathlib

/-!
Verification of the SSE decoder and conversation client of the
claude-web-chat extension, shallowly embedded from the TypeScript source
(`claudeClient.ts` and `chatPanel.ts`).  Strings are modelled as `List Char`;
JavaScript JSON values are modelled by the inductive type `Json` together with
an executable parser mirroring `JSON.parse`.
-/

namespace ClaudeWebChat

/-- JSON whitespace characters (also the characters relevant to `String.trim`
in the source's `line.slice(6).trim()` and `cookie.trim()` calls). -/
def isJsWs (c : Char) : Bool :=
  c = ' ' || c = '\t' || c = '\n' || c = '\r'

/-- Model of JavaScript `String.prototype.trim`. -/
def jsTrim (s : List Char) : List Char :=
  ((s.dropWhile isJsWs).reverse.dropWhile isJsWs).reverse

/-- Model of JavaScript `buffer.split('\n')`: splits on the newline character;
the empty string yields `[[]]`, matching `"".split('\n') === [""]`. -/
def splitNl : List Char → List (List Char)
  | [] => [[]]
  | c :: cs =>
    if c = '\n' then [] :: splitNl cs
    else
      match splitNl cs with
      | [] => [[c]]
      | h :: t => (c :: h) :: t

/-- All elements of a split but the last: the complete lines left in `lines`
after the source's `lines.pop()`. -/
def frontLines : List (List Char) → List (List Char)
  | [] => []
  | [_] => []
  | x :: xs => x :: frontLines xs

/-- The last element of a split (empty for an empty list): the value moved
back into `buffer` by `lines.pop() || ''`. -/
def popLast : List (List Char) → List Char
  | [] => []
  | [x] => x
  | _ :: xs => popLast xs

/-- The complete lines of an accumulated buffer. -/
def linesOf (s : List Char) : List (List Char) :=
  frontLines (splitNl s)

/-- The trailing (possibly partial) fragment of an accumulated buffer. -/
def restOf (s : List Char) : List Char :=
  popLast (splitNl s)

/-- JavaScript runtime values produced by `JSON.parse`. -/
inductive Json where
  | null : Json
  | bool (b : Bool) : Json
  | num (q : Rat) : Json
  | str (s : List Char) : Json
  | arr (elems : List Json) : Json
  | obj (fields : List (List Char × Json)) : Json

/-- JavaScript truthiness of a `Json` value
(`undefined`/`null`/`false`/`0`/`""` are falsy; objects and arrays truthy). -/
def jsTruthy : Json → Bool
  | .null => false
  | .bool b => b
  | .num q => q ≠ 0
  | .str s => !s.isEmpty
  | .arr _ => true
  | .obj _ => true

/-- Property lookup `o[k]` on a parsed JSON value: `none` models JavaScript
`undefined` (missing field, or property access on a non-object).  With
duplicate keys `JSON.parse` keeps the last occurrence, hence the
last-binding-wins lookup. -/
def getProp : Json → List Char → Option Json
  | .obj fs, k => lookupLast fs k
  | _, _ => none
where
  lookupLast : List (List Char × Json) → List Char → Option Json
    | [], _ => none
    | (k', v) :: rest, k =>
      match lookupLast rest k with
      | some v' => some v'
      | none => if k' = k then some v else none

/-- Hexadecimal digit value, for `\uXXXX` escapes. -/
def hexVal (c : Char) : Option Nat :=
  if '0' ≤ c ∧ c ≤ '9' then some (c.toNat - '0'.toNat)
  else if 'a' ≤ c ∧ c ≤ 'f' then some (c.toNat - 'a'.toNat + 10)
  else if 'A' ≤ c ∧ c ≤ 'F' then some (c.toNat - 'A'.toNat + 10)
  else none

/-- Single-character JSON string escapes. -/
def escChar (c : Char) : Option Char :=
  if c = '"' then some '"'
  else if c = '\\' then some '\\'
  else if c = '/' then some '/'
  else if c = 'b' then some (Char.ofNat 8)
  else if c = 'f' then some (Char.ofNat 12)
  else if c = 'n' then some '\n'
  else if c = 'r' then some '\r'
  else if c = 't' then some '\t'
  else none

/-- Body of a JSON string literal (after the opening quote); returns the
decoded characters and the remaining input after the closing quote. -/
def parseStr : List Char → Option (List Char × List Char)
  | [] => none
  | c :: rest =>
    if c = '"' then some ([], rest)
    else if c = '\\' then
      match rest with
      | [] => none
      | e :: rest2 =>
        if e = 'u' then
          match rest2 with
          | a :: b :: c2 :: d :: rest3 =>
            match hexVal a, hexVal b, hexVal c2, hexVal d with
            | some x1, some x2, some x3, some x4 =>
              (parseStr rest3).map
                (fun p => (Char.ofNat (x1 * 4096 + x2 * 256 + x3 * 16 + x4) :: p.1, p.2))
            | _, _, _, _ => none
          | _ => none
        else
          match escChar e with
          | some ec => (parseStr rest2).map (fun p => (ec :: p.1, p.2))
          | none => none
    else if c.toNat < 32 then none
    else (parseStr rest).map (fun p => (c :: p.1, p.2))

/-- Numeric value of a digit string. -/
def digitsVal (ds : List Char) : Nat :=
  ds.foldl (fun acc d => 10 * acc + (d.toNat - '0'.toNat)) 0

/-- JSON whitespace skipping between tokens. -/
def skipWs (cs : List Char) : List Char :=
  cs.dropWhile isJsWs

/-- JSON number literal per RFC 8259 (`-?int frac? exp?`, no leading zeros);
the value is kept exactly as a rational. -/
def parseNum (cs : List Char) : Option (Json × List Char) :=
  let signed : Bool × List Char :=
    match cs with
    | '-' :: r => (true, r)
    | _ => (false, cs)
  let neg := signed.1
  let cs1 := signed.2
  match cs1 with
  | [] => none
  | c :: cs2 =>
    if !c.isDigit then none
    else
      let ipr : Option (Nat × List Char) :=
        if c = '0' then
          match cs2 with
          | d :: _ => if d.isDigit then none else some (0, cs2)
          | [] => some (0, [])
        else some (digitsVal (cs1.takeWhile Char.isDigit), cs1.dropWhile Char.isDigit)
      match ipr with
      | none => none
      | some (ival, r1) =>
        let fr : Option (Rat × List Char) :=
          match r1 with
          | '.' :: r2 =>
            let fd := r2.takeWhile Char.isDigit
            if fd.isEmpty then none
            else some ((digitsVal fd : Rat) / ((10 : Rat) ^ fd.length), r2.dropWhile Char.isDigit)
          | _ => some (0, r1)
        match fr with
        | none => none
        | some (fval, r3) =>
          let ex : Option (Int × List Char) :=
            match r3 with
            | e :: r4 =>
              if e = 'e' ∨ e = 'E' then
                let esigned : Bool × List Char :=
                  match r4 with
                  | '+' :: r5 => (false, r5)
                  | '-' :: r5 => (true, r5)
                  | _ => (false, r4)
                let ed := esigned.2.takeWhile Char.isDigit
                if ed.isEmpty then none
                else
                  some (if esigned.1 then -(digitsVal ed : Int) else (digitsVal ed : Int),
                        esigned.2.dropWhile Char.isDigit)
              else some (0, r3)
            | [] => some (0, [])
          match ex with
          | none => none
          | some (expVal, r6) =>
            let mag : Rat := ((ival : Rat) + fval) * (10 : Rat) ^ expVal
            some (.num (if neg then -mag else mag), r6)

mutual

/-- JSON value parser (fuel-indexed model of `JSON.parse`'s grammar). -/
def parseVal (fuel : Nat) (cs : List Char) : Option (Json × List Char) :=
  match fuel with
  | 0 => none
  | f + 1 =>
    match skipWs cs with
    | [] => none
    | c :: rest =>
      if c = '\x7b' then parseObjBody f rest
      else if c = '[' then parseArrBody f rest
      else if c = '"' then (parseStr rest).map (fun p => (.str p.1, p.2))
      else if c = 't' then
        if rest.take 3 = "rue".toList then some (.bool true, rest.drop 3) else none
      else if c = 'f' then
        if rest.take 4 = "alse".toList then some (.bool false, rest.drop 4) else none
      else if c = 'n' then
        if rest.take 3 = "ull".toList then some (.null, rest.drop 3) else none
      else parseNum (c :: rest)

/-- Array body, after the opening bracket. -/
def parseArrBody (fuel : Nat) (cs : List Char) : Option (Json × List Char) :=
  match fuel with
  | 0 => none
  | f + 1 =>
    match skipWs cs with
    | ']' :: r => some (.arr [], r)
    | _ =>
      match parseArrItems f cs with
      | some (vs, r) => some (.arr vs, r)
      | none => none

/-- One-or-more comma-separated array elements, then the closing bracket. -/
def parseArrItems (fuel : Nat) (cs : List Char) : Option (List Json × List Char) :=
  match fuel with
  | 0 => none
  | f + 1 =>
    match parseVal f cs with
    | none => none
    | some (v, r) =>
      match skipWs r with
      | ',' :: r2 =>
        match parseArrItems f r2 with
        | some (vs, r3) => some (v :: vs, r3)
        | none => none
      | ']' :: r2 => some ([v], r2)
      | _ => none

/-- Object body, after the opening brace. -/
def parseObjBody (fuel : Nat) (cs : List Char) : Option (Json × List Char) :=
  match fuel with
  | 0 => none
  | f + 1 =>
    match skipWs cs with
    | '\x7d' :: r => some (.obj [], r)
    | _ =>
      match parseObjItems f cs with
      | some (fs, r) => some (.obj fs, r)
      | none => none

/-- One-or-more comma-separated `"key": value` members, then the closing
brace. -/
def parseObjItems (fuel : Nat) (cs : List Char) : Option (List (List Char × Json) × List Char) :=
  match fuel with
  | 0 => none
  | f + 1 =>
    match skipWs cs with
    | '"' :: r =>
      match parseStr r with
      | none => none
      | some (k, r1) =>
        match skipWs r1 with
        | ':' :: r2 =>
          match parseVal f r2 with
          | none => none
          | some (v, r3) =>
            match skipWs r3 with
            | ',' :: r4 =>
              match parseObjItems f r4 with
              | some (fs, r5) => some ((k, v) :: fs, r5)
              | none => none
            | '\x7d' :: r4 => some ([(k, v)], r4)
            | _ => none
        | _ => none
    | _ => none

end

/-- Model of `JSON.parse(data)`: `some` on success, `none` when the call would
throw; the whole input (up to trailing whitespace) must be consumed. -/
def parseJson (cs : List Char) : Option Json :=
  match parseVal (2 * cs.length + 4) cs with
  | some (j, r) => if (skipWs r).isEmpty then some j else none
  | none => none

/-- A decoded unit of the SSE stream, as delivered to the client callbacks:
`delta t` models an `onChunk(t)` call (`t : Option Json` because the source
passes `parsed.delta.text` through unchecked, which may be any value or
JavaScript `undefined`), `done` models an `onDone()` call. -/
inductive StreamEvent where
  | delta (text : Option Json) : StreamEvent
  | done : StreamEvent

/-- Field names and tags tested by the stream handler. -/
def typeKey : List Char := "type".toList

/-- The `delta` member name. -/
def deltaKey : List Char := "delta".toList

/-- The `text` member name. -/
def textKey : List Char := "text".toList

/-- The legacy `completion` member name. -/
def completionKey : List Char := "completion".toList

/-- The `content_block_delta` tag. -/
def cbdTag : List Char := "content_block_delta".toList

/-- The `text_delta` tag. -/
def tdTag : List Char := "text_delta".toList

/-- The first condition of the stream handler:
`parsed.type === 'content_block_delta' && parsed.delta?.type === 'text_delta'`
fires `onChunk(parsed.delta.text)` — note `parsed.delta.text` is passed
through unchecked and may be missing (JavaScript `undefined`). -/
def nestedDelta (j : Json) : Option StreamEvent :=
  match getProp j typeKey with
  | some (.str t) =>
    if t = cbdTag then
      match getProp j deltaKey with
      | some d =>
        match getProp d typeKey with
        | some (.str t2) =>
          if t2 = tdTag then
            some (.delta (getProp d textKey))
          else none
        | _ => none
      | none => none
    else none
  | _ => none

/-- Classification of a parsed payload, from `sendMessage`'s stream handler:
the nested-delta condition first, `else if (parsed.completion)` — a
truthiness test — fires `onChunk(parsed.completion)`, else nothing. -/
def classifyJson (j : Json) : Option StreamEvent :=
  match nestedDelta j with
  | some e => some e
  | none =>
    match getProp j completionKey with
    | some c => if jsTruthy c then some (.delta (some c)) else none
    | none => none

/-- Event produced for the payload of a `data: ` line that is not the
`[DONE]` sentinel: `JSON.parse` it and classify, ignoring parse failures. -/
def dataPayloadEvent (d : List Char) : Option StreamEvent :=
  match parseJson d with
  | some j => classifyJson j
  | none => none

/-- What the decoder does with one complete line. -/
inductive LineAct where
  | skip : LineAct
  | emit (e : StreamEvent) : LineAct
  | stop : LineAct

/-- Per-line behaviour of the stream handler: lines lacking the `data: `
prefix are ignored; a sentinel payload `[DONE]` triggers `onDone()` and the
early `return`; otherwise the payload is parsed and classified. -/
def lineAct (l : List Char) : LineAct :=
  if "data: ".toList.isPrefixOf l then
    let d := jsTrim (l.drop 6)
    if d = "[DONE]".toList then .stop
    else
      match dataPayloadEvent d with
      | some e => .emit e
      | none => .skip
  else .skip

/-- Bool test for the sentinel line, used to state stream validity. -/
def isStopLine (l : List Char) : Bool :=
  match lineAct l with
  | .stop => true
  | _ => false

/-- The `for (const line of lines)` loop of one `data` callback: events
emitted in order; the Bool records whether the `[DONE]` early `return` fired,
in which case the remaining lines of this chunk are dropped. -/
def runLines : List (List Char) → List StreamEvent × Bool
  | [] => ([], false)
  | l :: ls =>
    match lineAct l with
    | .stop => ([.done], true)
    | .emit e =>
      let p := runLines ls
      (e :: p.1, p.2)
    | .skip => runLines ls

/-- One `data` callback of the stream handler: append the chunk to the
buffer, split on newline, keep the trailing (possibly partial) fragment as
the new buffer, and process every complete line. -/
def feedChunk (buffer chunk : List Char) : List Char × List StreamEvent :=
  let s := buffer ++ chunk
  (restOf s, (runLines (linesOf s)).1)

/-- Feeding a whole sequence of network chunks.  The early `return` in the
source only exits the current `data` callback: later chunks are still
decoded, which is why no stop-flag is threaded across chunks. -/
def runChunks (buffer : List Char) : List (List Char) → List StreamEvent
  | [] => []
  | c :: cs =>
    let p := feedChunk buffer c
    p.2 ++ runChunks p.1 cs

/-- All `onChunk`/`onDone` callbacks fired by the `data` handlers for a chunk
sequence (the `end` handler's extra `onDone()` is modelled separately). -/
def decodeData (chunks : List (List Char)) : List StreamEvent :=
  runChunks [] chunks

/-- The VS Code secret storage holding the session cookie: `none` models no
stored value (`secrets.get` returning `undefined`). -/
def SecretStore : Type := Option (List Char)

/-- `setCookie(cookie)` stores `cookie.trim()`. -/
def setCookie (cookie : List Char) : SecretStore :=
  some (jsTrim cookie)

/-- `clearCookie()` deletes the stored value. -/
def clearCookie : SecretStore :=
  none

/-- `hasCookie()` is `!!c` for the stored value `c`: false for `undefined`
and for the empty string. -/
def hasCookie : SecretStore → Bool
  | some c => !c.isEmpty
  | none => false

/-- Message roles. -/
inductive Role where
  | user : Role
  | assistant : Role

/-- A chat transcript entry (`{role, content}`). -/
structure Message where
  role : Role
  content : List Char

/-- The mutable fields of `ClaudeChatPanel` relevant to the conversation
state machine.  `orgId`/`conversationId` are `Option Json` because the source
assigns them whatever the bootstrap promises resolve with. -/
structure PanelState where
  messages : List Message
  orgId : Option Json
  conversationId : Option Json

/-- Truthiness of a possibly-`undefined` value, for the `if (!this._orgId)`
and `if (!this._conversationId)` checks. -/
def jsTruthyO : Option Json → Bool
  | none => false
  | some j => jsTruthy j

/-- Events posted to the webview (the display sink). -/
inductive DisplayEvent where
  | cookieStatus (has : Bool) : DisplayEvent
  | userMessage (text : List Char) : DisplayEvent
  | thinking : DisplayEvent
  | status (text : List Char) : DisplayEvent
  | startAssistantMessage : DisplayEvent
  | chunk (text : Option Json) : DisplayEvent
  | done : DisplayEvent
  | error (text : List Char) : DisplayEvent
  | clearChat : DisplayEvent

/-- Network requests the client can issue. -/
inductive NetCall where
  | getOrg : NetCall
  | createConv : NetCall
  | completion : NetCall
deriving DecidableEq

/-- A callback fired by `sendMessage` into the panel. -/
inductive CbEvent where
  | chunk (text : Option Json) : CbEvent
  | done : CbEvent
  | err (msg : List Char) : CbEvent

/-- Behaviour of the network on the completion request: an HTTP error status
(the `statusCode >= 400` branch), a request error (`req.on('error')`), or a
response stream delivering `chunks` followed by a normal end
(`endErr = none`, firing the `end` handler) or a stream error
(`endErr = some msg`, firing the `error` handler). -/
inductive SendOutcome where
  | httpError (code : Nat) (body : List Char) : SendOutcome
  | reqError (msg : List Char) : SendOutcome
  | stream (chunks : List (List Char)) (endErr : Option (List Char)) : SendOutcome

/-- One invocation's worth of remote behaviour: the organization-resolution
response body (or transport error), the conversation-creation response body
(or transport error), and the completion exchange. -/
structure Env where
  orgResponse : Except (List Char) (List Char)
  convResponse : Except (List Char) (List Char)
  sendOutcome : SendOutcome

/-- String coercion of the value handed to `onChunk`, as performed by
JavaScript `fullResponse += chunk` (`none` is `undefined`). -/
def jsStringOf : Option Json → List Char
  | none => "undefined".toList
  | some j => jsonToChars j
where
  jsonToChars : Json → List Char
    | .null => "null".toList
    | .bool true => "true".toList
    | .bool false => "false".toList
    | .num q => (toString q).toList
    | .str s => s
    | .arr xs => arrToChars xs
    | .obj _ => "[object Object]".toList
  arrToChars : List Json → List Char
    | [] => []
    | [Json.null] => []
    | [x] => jsonToChars x
    | Json.null :: xs => ',' :: arrToChars xs
    | x :: xs => jsonToChars x ++ ',' :: arrToChars xs

/-- The `res.on('end')` handler of `getOrganizationId`: parse the body, fail
unless it is a non-empty array, else resolve `orgs[0].uuid`. -/
def orgFromBody (data : List Char) : Except (List Char) (Option Json) :=
  match parseJson data with
  | none => .error ("Failed to parse org response: ".toList ++ data)
  | some (.arr (o :: _)) => .ok (getProp o "uuid".toList)
  | some _ => .error ("Could not get organization. Response: ".toList ++ data)

/-- `ClaudeApiClient.getOrganizationId`, as observed by the panel: throws
when no cookie is stored (before any request), else issues the request and
processes the response.  The second component records the network calls
actually issued. -/
def getOrganizationId (store : SecretStore) (resp : Except (List Char) (List Char)) :
    Except (List Char) (Option Json) × List NetCall :=
  if !hasCookie store then (.error "No session cookie set.".toList, [])
  else
    match resp with
    | .error m => (.error m, [NetCall.getOrg])
    | .ok data => (orgFromBody data, [NetCall.getOrg])

/-- The `res.on('end')` handler of `ClaudeChatPanel._createConversation`:
parse the body and resolve `parsed.uuid` when it is truthy. -/
def convFromBody (data : List Char) : Except (List Char) Json :=
  match parseJson data with
  | none => .error ("Parse error: ".toList ++ data)
  | some j =>
    match getProp j "uuid".toList with
    | some u => if jsTruthy u then .ok u else .error ("No UUID in response: ".toList ++ data)
    | none => .error ("No UUID in response: ".toList ++ data)

/-- `ClaudeChatPanel._createConversation`: throws `Missing cookie or org ID`
before any request when the cookie or cached org id is falsy. -/
def createConversation (store : SecretStore) (orgId : Option Json)
    (resp : Except (List Char) (List Char)) :
    Except (List Char) Json × List NetCall :=
  if !hasCookie store || !jsTruthyO orgId then
    (.error "Missing cookie or org ID".toList, [])
  else
    match resp with
    | .error m => (.error m, [NetCall.createConv])
    | .ok data => (convFromBody data, [NetCall.createConv])

/-- The callbacks fired by `ClaudeApiClient.sendMessage` once the request is
issued: a status `>= 400` response fires `onError` once with the collected
body; a request error fires `onError`; otherwise every `data` chunk is
decoded (see `decodeData`) and the stream's end fires `onDone` — even when a
`[DONE]` sentinel already fired it — or `onError` on a stream error. -/
def sendMessageCbs : SendOutcome → List CbEvent
  | .httpError code body =>
    [.err ("HTTP ".toList ++ (toString code).toList ++ ": ".toList ++ body)]
  | .reqError m => [.err m]
  | .stream chunks endErr =>
    (decodeData chunks).map cbOfEvent ++
    [match endErr with
     | none => CbEvent.done
     | some m => CbEvent.err m]
where
  cbOfEvent : StreamEvent → CbEvent
    | .delta t => .chunk t
    | .done => .done

/-- `ClaudeApiClient.sendMessage` as observed by the panel: throws when no
cookie is stored (before the request), else issues the completion request and
fires the callbacks. -/
def sendMessageRun (store : SecretStore) (o : SendOutcome) :
    Except (List Char) (List CbEvent) × List NetCall :=
  if !hasCookie store then (.error "No session cookie set.".toList, [])
  else (.ok (sendMessageCbs o), [NetCall.completion])

/-- The panel's `catch` block and `onError` callback both post
`Error: ${err.message}`. -/
def errFmt (m : List Char) : List Char :=
  "Error: ".toList ++ m

/-- The panel's reaction to the `sendMessage` callbacks, threading
`fullResponse`: `onChunk` accumulates and posts a `chunk` event; `onDone`
appends an assistant message holding the accumulated text and posts `done`;
`onError` posts an `error` event. -/
def applyCbs (st : PanelState) (fullResponse : List Char) :
    List CbEvent → PanelState × List DisplayEvent
  | [] => (st, [])
  | .chunk t :: rest =>
    let p := applyCbs st (fullResponse ++ jsStringOf t) rest
    (p.1, DisplayEvent.chunk t :: p.2)
  | .done :: rest =>
    let p := applyCbs {st with messages := st.messages ++ [⟨Role.assistant, fullResponse⟩]}
      fullResponse rest
    (p.1, DisplayEvent.done :: p.2)
  | .err m :: rest =>
    let p := applyCbs st fullResponse rest
    (p.1, DisplayEvent.error (errFmt m) :: p.2)

/-- Stage 5 of `_handleUserMessage`: post `startAssistantMessage`, reset
`fullResponse`, and run `sendMessage`. -/
def streamStage (store : SecretStore) (st : PanelState) (env : Env)
    (evs : List DisplayEvent) (calls : List NetCall) :
    PanelState × List DisplayEvent × List NetCall :=
  let evs := evs ++ [DisplayEvent.startAssistantMessage]
  match sendMessageRun store env.sendOutcome with
  | (.error m, cs) => (st, evs ++ [DisplayEvent.error (errFmt m)], calls ++ cs)
  | (.ok cbs, cs) =>
    let p := applyCbs st [] cbs
    (p.1, evs ++ p.2, calls ++ cs)

/-- Stage 3 of `_handleUserMessage`: create a conversation when the cached
identifier is falsy. -/
def convStage (store : SecretStore) (st : PanelState) (env : Env)
    (evs : List DisplayEvent) (calls : List NetCall) :
    PanelState × List DisplayEvent × List NetCall :=
  if jsTruthyO st.conversationId then streamStage store st env evs calls
  else
    let evs := evs ++ [DisplayEvent.status "Starting conversation...".toList]
    match createConversation store st.orgId env.convResponse with
    | (.error m, cs) => (st, evs ++ [DisplayEvent.error (errFmt m)], calls ++ cs)
    | (.ok u, cs) => streamStage store {st with conversationId := some u} env evs (calls ++ cs)

/-- `ClaudeChatPanel._handleUserMessage(text)`: returns the new panel state,
the display events posted in order, and the network calls issued.  Mirrors
the source: the blank-input no-op, the cookie check, the user-message append
and `userMessage`/`thinking` posts, then org bootstrap, conversation
bootstrap and the streaming exchange, with every thrown error caught and
posted as one `error` event. -/
def handleUserMessage (store : SecretStore) (st : PanelState) (env : Env) (text : List Char) :
    PanelState × List DisplayEvent × List NetCall :=
  if (jsTrim text).isEmpty then (st, [], [])
  else if !hasCookie store then
    (st, [DisplayEvent.error "No session cookie set. Click \"Set Cookie\" to configure.".toList], [])
  else
    let st1 : PanelState := {st with messages := st.messages ++ [⟨Role.user, text⟩]}
    let evs := [DisplayEvent.userMessage text, DisplayEvent.thinking]
    if jsTruthyO st1.orgId then convStage store st1 env evs []
    else
      let evs := evs ++ [DisplayEvent.status "Getting organization...".toList]
      match getOrganizationId store env.orgResponse with
      | (.error m, cs) => (st1, evs ++ [DisplayEvent.error (errFmt m)], cs)
      | (.ok o, cs) => convStage store {st1 with orgId := o} env evs cs

/-- `ClaudeChatPanel._startNewConversation`: clear the message history and
the conversation identifier, post `clearChat`. -/
def startNewConversation (st : PanelState) : PanelState × List DisplayEvent :=
  ({st with messages := [], conversationId := none}, [DisplayEvent.clearChat])

/-- With a non-blank text and no usable cookie, `_handleUserMessage` posts a
single error event, issues no network call and leaves the state unchanged. -/
theorem handle_no_cookie (store : SecretStore) (st : PanelState) (env : Env) (text : List Char)
    (h1 : jsTrim text ≠ []) (h2 : hasCookie store = false) :
    handleUserMessage store st env text =
      (st, [DisplayEvent.error "No session cookie set. Click \"Set Cookie\" to configure.".toList],
       []) := by
  rcases hjt : jsTrim text with _ | ⟨c, cs⟩
  · exact absurd hjt h1
  · simp [handleUserMessage, hjt, h2]

/-- C9: for every input text that is empty or whitespace-only after trimming,
`sendPrompt` (`_handleUserMessage`) is a no-op: no display events, no network
calls, and no state change. -/
theorem blank_text_is_noop (store : SecretStore) (st : PanelState) (env : Env) (text : List Char)
    (h : jsTrim text = []) :
    handleUserMessage store st env text = (st, [], []) := by
  simp [handleUserMessage, h]

/-- Witness for `blank_text_is_noop` at the whitespace-only input of the
spec's test. -/
theorem blank_text_is_noop_witness :
    jsTrim "   ".toList = [] ∧
    handleUserMessage (setCookie "k".toList) ⟨[], none, none⟩
      ⟨.ok [], .ok [], .stream [] none⟩ "   ".toList = (⟨[], none, none⟩, [], []) :=
  ⟨rfl, blank_text_is_noop _ _ _ _ rfl⟩

/-- C6: with a non-blank text and no stored token, the invocation emits
exactly one `error` display event and nothing else: no network call, no other
display event, and no change to history or the cached identifiers. -/
theorem no_token_single_error (store : SecretStore) (st : PanelState) (env : Env)
    (text : List Char) (h1 : jsTrim text ≠ []) (h2 : hasCookie store = false) :
    handleUserMessage store st env text =
      (st, [DisplayEvent.error "No session cookie set. Click \"Set Cookie\" to configure.".toList],
       []) :=
  handle_no_cookie store st env text h1 h2

/-- Witness for `no_token_single_error`: no token stored, prompt `hi`. -/
theorem no_token_single_error_witness :
    jsTrim "hi".toList ≠ [] ∧ hasCookie (none : SecretStore) = false ∧
    handleUserMessage none ⟨[], none, none⟩ ⟨.ok [], .ok [], .stream [] none⟩ "hi".toList =
      (⟨[], none, none⟩,
       [DisplayEvent.error "No session cookie set. Click \"Set Cookie\" to configure.".toList],
       []) :=
  ⟨by decide, rfl, no_token_single_error _ _ _ _ (by decide) rfl⟩

/-- C10: storing a whitespace-only cookie stores the empty string,
`hasCookie` then reports false, and a subsequent non-blank prompt fails the
auth check with a single error event and no network call. -/
theorem whitespace_cookie_indistinguishable (s : List Char) (h : ∀ c ∈ s, isJsWs c = true) :
    setCookie s = some [] ∧ hasCookie (setCookie s) = false ∧
    ∀ st env text, jsTrim text ≠ [] →
      handleUserMessage (setCookie s) st env text =
        (st, [DisplayEvent.error "No session cookie set. Click \"Set Cookie\" to configure.".toList],
         []) := by
  have h1 : s.dropWhile isJsWs = [] := List.dropWhile_eq_nil_iff.mpr h
  have hs : jsTrim s = [] := by simp [jsTrim, h1]
  have hstore : setCookie s = some [] := by simp [setCookie, hs]
  have hhc : hasCookie (setCookie s) = false := by simp [hasCookie, hstore]
  exact ⟨hstore, hhc, fun st env text ht => handle_no_cookie _ _ _ _ ht hhc⟩

/-- Witness for `whitespace_cookie_indistinguishable` at a two-space cookie
and the prompt `hi`. -/
theorem whitespace_cookie_indistinguishable_witness :
    setCookie "  ".toList = some [] ∧ hasCookie (setCookie "  ".toList) = false ∧
    handleUserMessage (setCookie "  ".toList) ⟨[], none, none⟩
      ⟨.ok [], .ok [], .stream [] none⟩ "hi".toList =
      (⟨[], none, none⟩,
       [DisplayEvent.error "No session cookie set. Click \"Set Cookie\" to configure.".toList],
       []) :=
  ⟨(whitespace_cookie_indistinguishable "  ".toList (by decide)).1,
   (whitespace_cookie_indistinguishable "  ".toList (by decide)).2.1,
   (whitespace_cookie_indistinguishable "  ".toList (by decide)).2.2 _ _ _ (by decide)⟩

/-- C1: with a token stored, successful bootstrap, and a stream delivering an
explicit `[DONE]` sentinel followed by the natural end of the response
stream, the invocation posts TWO `done` display events (the sentinel fires
`onDone`, and the `end` handler fires it again) and appends the assistant
message twice — the code does not guarantee a unique terminal event. -/
theorem sentinel_then_end_fires_done_twice :
    (handleUserMessage (setCookie "k".toList) ⟨[], none, none⟩
      ⟨.ok "[\x7b\"uuid\":\"org-1\"\x7d]".toList, .ok "\x7b\"uuid\":\"conv-1\"\x7d".toList,
       .stream ["data: [DONE]\n".toList] none⟩ "hi".toList).2.1 =
      [DisplayEvent.userMessage "hi".toList, DisplayEvent.thinking,
       DisplayEvent.status "Getting organization...".toList,
       DisplayEvent.status "Starting conversation...".toList,
       DisplayEvent.startAssistantMessage, DisplayEvent.done, DisplayEvent.done] ∧
    (handleUserMessage (setCookie "k".toList) ⟨[], none, none⟩
      ⟨.ok "[\x7b\"uuid\":\"org-1\"\x7d]".toList, .ok "\x7b\"uuid\":\"conv-1\"\x7d".toList,
       .stream ["data: [DONE]\n".toList] none⟩ "hi".toList).1.messages =
      [⟨Role.user, "hi".toList⟩, ⟨Role.assistant, []⟩, ⟨Role.assistant, []⟩] :=
  ⟨rfl, rfl⟩

/-- C3: after a `data: [DONE]` line the decoder only drops the remaining
lines of the same network chunk (the early `return`); a `data` line arriving
in a later chunk is still interpreted and emits a further delta event. -/
theorem decoder_interprets_lines_after_sentinel :
    decodeData ["data: [DONE]\n".toList, "data: \x7b\"completion\":\"X\"\x7d\n".toList] =
      [StreamEvent.done, StreamEvent.delta (some (Json.str "X".toList))] :=
  rfl

/-- C5 fails on the code: the user message is appended and
`userMessage`/`thinking` are posted BEFORE organization resolution, so a
failed resolution (here: empty organization list) leaves the user message in
history and a `userMessage` event in the trace. -/
theorem org_failure_keeps_user_message_cex :
    handleUserMessage (setCookie "k".toList) ⟨[], none, none⟩
      ⟨.ok "[]".toList, .ok "x".toList, .stream [] none⟩ "hi".toList =
      (⟨[⟨Role.user, "hi".toList⟩], none, none⟩,
       [DisplayEvent.userMessage "hi".toList, DisplayEvent.thinking,
        DisplayEvent.status "Getting organization...".toList,
        DisplayEvent.error "Error: Could not get organization. Response: []".toList],
       [NetCall.getOrg]) :=
  rfl

/-- C5 amended: when organization resolution fails (transport failure, parse
failure, or an empty organization list), the invocation emits exactly one
`error` display event, the organization stays uncached and no further
bootstrap or completion call is made; however the user message was already
appended to history and `userMessage`/`thinking` already posted. -/
theorem org_failure_emits_error (store : SecretStore) (st : PanelState) (env : Env)
    (text m : List Char) (h1 : hasCookie store = true) (h2 : jsTrim text ≠ [])
    (h3 : jsTruthyO st.orgId = false)
    (h4 : (getOrganizationId store env.orgResponse).1 = .error m) :
    handleUserMessage store st env text =
      ({st with messages := st.messages ++ [⟨Role.user, text⟩]},
       [DisplayEvent.userMessage text, DisplayEvent.thinking,
        DisplayEvent.status "Getting organization...".toList, DisplayEvent.error (errFmt m)],
       [NetCall.getOrg]) := by
  rcases hjt : jsTrim text with _ | ⟨c, cs⟩
  · exact absurd hjt h2
  have hcalls : (getOrganizationId store env.orgResponse).2 = [NetCall.getOrg] := by
    unfold getOrganizationId
    rw [h1]
    cases env.orgResponse <;> rfl
  rcases hg : getOrganizationId store env.orgResponse with ⟨res, cls⟩
  rw [hg] at h4 hcalls
  simp only at h4 hcalls
  subst h4 hcalls
  simp [handleUserMessage, hjt, h1, h3, hg]

/-- Witness for `org_failure_emits_error`: empty organization list. -/
theorem org_failure_emits_error_witness :
    handleUserMessage (setCookie "k".toList) ⟨[], none, none⟩
      ⟨.ok "[]".toList, .ok "x".toList, .stream [] none⟩ "hi".toList =
      (⟨[⟨Role.user, "hi".toList⟩], none, none⟩,
       [DisplayEvent.userMessage "hi".toList, DisplayEvent.thinking,
        DisplayEvent.status "Getting organization...".toList,
        DisplayEvent.error (errFmt "Could not get organization. Response: []".toList)],
       [NetCall.getOrg]) :=
  org_failure_emits_error _ _ _ _ _ rfl (by decide) rfl rfl

/-- Once the precondition holds, `_createConversation` always issues exactly
the conversation-creation request. -/
theorem createConversation_calls (store : SecretStore) (orgId : Option Json)
    (resp : Except (List Char) (List Char)) (h1 : hasCookie store = true)
    (h2 : jsTruthyO orgId = true) :
    (createConversation store orgId resp).2 = [NetCall.createConv] := by
  unfold createConversation
  rw [h1, h2]
  cases resp <;> rfl

/-- With a cookie present, `sendMessage` always issues exactly the completion
request and resolves with its callback trace. -/
theorem sendMessageRun_ok (store : SecretStore) (o : SendOutcome)
    (h1 : hasCookie store = true) :
    sendMessageRun store o = (.ok (sendMessageCbs o), [NetCall.completion]) := by
  simp [sendMessageRun, h1]

/-- C7: `_startNewConversation` clears the conversation identifier and the
full message history together, leaves the cached organization unchanged,
posts exactly a `clearChat` event, and never fails; a subsequent non-blank
prompt with the organization still cached issues a conversation-creation call
but no organization-resolution call. -/
theorem reset_conversation_spec (st : PanelState) :
    (startNewConversation st).1.conversationId = none ∧
    (startNewConversation st).1.messages = [] ∧
    (startNewConversation st).1.orgId = st.orgId ∧
    (startNewConversation st).2 = [DisplayEvent.clearChat] ∧
    ∀ store env text, hasCookie store = true → jsTrim text ≠ [] →
      jsTruthyO st.orgId = true →
      NetCall.getOrg ∉ (handleUserMessage store (startNewConversation st).1 env text).2.2 ∧
      NetCall.createConv ∈ (handleUserMessage store (startNewConversation st).1 env text).2.2 := by
  refine ⟨rfl, rfl, rfl, rfl, ?_⟩
  intro store env text h1 h2 h3
  rcases hjt : jsTrim text with _ | ⟨c, cs⟩
  · exact absurd hjt h2
  have hcalls :
      (handleUserMessage store (startNewConversation st).1 env text).2.2 =
        (createConversation store st.orgId env.convResponse).2 ++
          match (createConversation store st.orgId env.convResponse).1 with
          | .error _ => []
          | .ok _ => [NetCall.completion] := by
    rcases hcc : createConversation store st.orgId env.convResponse with ⟨res, cls⟩
    cases res <;>
      simp [handleUserMessage, hjt, h1, h3, startNewConversation, convStage,
        streamStage, sendMessageRun_ok store env.sendOutcome h1, hcc,
        show jsTruthyO none = false from rfl]
  rw [hcalls, createConversation_calls store st.orgId env.convResponse h1 h3]
  cases (createConversation store st.orgId env.convResponse).1 <;> simp

/-- Witness for `reset_conversation_spec`: a cached organization survives the
reset, and the next prompt creates a conversation without re-resolving the
organization. -/
theorem reset_conversation_spec_witness :
    NetCall.getOrg ∉ (handleUserMessage (setCookie "k".toList)
        (startNewConversation ⟨[⟨Role.user, "a".toList⟩], some (Json.str "org-1".toList),
          some (Json.str "conv-1".toList)⟩).1
        ⟨.ok "[]".toList, .ok "\x7b\"uuid\":\"conv-2\"\x7d".toList, .stream [] none⟩
        "hi".toList).2.2 ∧
    NetCall.createConv ∈ (handleUserMessage (setCookie "k".toList)
        (startNewConversation ⟨[⟨Role.user, "a".toList⟩], some (Json.str "org-1".toList),
          some (Json.str "conv-1".toList)⟩).1
        ⟨.ok "[]".toList, .ok "\x7b\"uuid\":\"conv-2\"\x7d".toList, .stream [] none⟩
        "hi".toList).2.2 :=
  (reset_conversation_spec _).2.2.2.2 _ _ _ rfl (by decide) rfl

/-- The nested-delta branch fires exactly on an envelope with tag
`content_block_delta` whose `delta` member carries tag `text_delta`, and
passes the `text` member through (possibly `undefined`). -/
theorem nestedDelta_eq_some_iff (j : Json) (e : StreamEvent) :
    nestedDelta j = some e ↔
      ∃ d, getProp j typeKey = some (.str cbdTag) ∧
        getProp j deltaKey = some d ∧
        getProp d typeKey = some (.str tdTag) ∧
        e = .delta (getProp d textKey) := by
  constructor
  · intro h
    unfold nestedDelta at h
    split at h
    case _ t ht =>
      split at h
      case isTrue hteq =>
        split at h
        case _ d hd =>
          split at h
          case _ t2 ht2 =>
            split at h
            case isTrue ht2eq =>
              exact ⟨d, by rw [ht, hteq], hd, by rw [ht2, ht2eq],
                (Option.some.inj h).symm⟩
            case isFalse => exact absurd h (by simp)
          case _ => exact absurd h (by simp)
        case _ => exact absurd h (by simp)
      case isFalse => exact absurd h (by simp)
    case _ => exact absurd h (by simp)
  · rintro ⟨d, h1, h2, h3, rfl⟩
    unfold nestedDelta
    simp [h1, h2, h3]

/-- The nested-delta branch is silent exactly when the two tags do not both
match. -/
theorem nestedDelta_eq_none_iff (j : Json) :
    nestedDelta j = none ↔
      ¬ ∃ d, getProp j typeKey = some (.str cbdTag) ∧
        getProp j deltaKey = some d ∧
        getProp d typeKey = some (.str tdTag) := by
  constructor
  · rintro h ⟨d, h1, h2, h3⟩
    have : nestedDelta j = some (.delta (getProp d textKey)) :=
      (nestedDelta_eq_some_iff j _).mpr ⟨d, h1, h2, h3, rfl⟩
    rw [h] at this
    exact Option.noConfusion this
  · intro h
    rcases hn : nestedDelta j with _ | e
    · rfl
    · rcases (nestedDelta_eq_some_iff j e).mp hn with ⟨d, h1, h2, h3, _⟩
      exact absurd ⟨d, h1, h2, h3⟩ h

/-- C4 fails on the code: `\x7b"completion":""\x7d` is a legacy envelope
carrying a completion field directly, yet — `""` being falsy — the decoder
emits no event for it, where the claim demands a delta event with the
completion text. -/
theorem empty_completion_no_event_cex :
    parseJson "\x7b\"completion\":\"\"\x7d".toList =
      some (Json.obj [("completion".toList, Json.str [])]) ∧
    dataPayloadEvent "\x7b\"completion\":\"\"\x7d".toList = none ∧
    lineAct "data: \x7b\"completion\":\"\"\x7d".toList = LineAct.skip :=
  ⟨rfl, rfl, rfl⟩

/-- C4 amended: for every complete data-line payload, the decoder emits an
event exactly when the payload parses and either (a) carries the
`content_block_delta`/`text_delta` tags — the event is a delta with the
nested `text` member, which is passed through even when absent — or (b) does
not match (a) and carries a truthy `completion` member (in particular, a
payload whose completion is the empty string, or any other falsy value,
yields no event); unparseable payloads and all other shapes yield no event. -/
theorem data_payload_event_characterization (d : List Char) (e : StreamEvent) :
    dataPayloadEvent d = some e ↔
      ∃ j, parseJson d = some j ∧
        ((∃ dd, getProp j typeKey = some (.str cbdTag) ∧
            getProp j deltaKey = some dd ∧
            getProp dd typeKey = some (.str tdTag) ∧
            e = .delta (getProp dd textKey)) ∨
         ((¬ ∃ dd, getProp j typeKey = some (.str cbdTag) ∧
             getProp j deltaKey = some dd ∧
             getProp dd typeKey = some (.str tdTag)) ∧
          ∃ c, getProp j completionKey = some c ∧ jsTruthy c = true ∧
            e = .delta (some c))) := by
  unfold dataPayloadEvent
  rcases hp : parseJson d with _ | j
  · simp
  · simp only [hp, Option.some.injEq]
    constructor
    · intro h
      refine ⟨j, rfl, ?_⟩
      unfold classifyJson at h
      rcases hn : nestedDelta j with _ | e'
      · rw [hn] at h
        right
        refine ⟨(nestedDelta_eq_none_iff j).mp hn, ?_⟩
        rcases hc : getProp j completionKey with _ | c
        · simp [hc] at h
        · by_cases htr : jsTruthy c
          · simp [hc, htr] at h
            exact ⟨c, rfl, htr, h.symm⟩
          · simp [hc, htr] at h
      · rw [hn] at h
        left
        rcases (nestedDelta_eq_some_iff j e').mp hn with ⟨dd, h1, h2, h3, he'⟩
        refine ⟨dd, h1, h2, h3, ?_⟩
        have he : e' = e := by simpa using h
        rw [← he, he']
    · rintro ⟨j', hj', hcase⟩
      subst hj'
      unfold classifyJson
      rcases hcase with ⟨dd, h1, h2, h3, rfl⟩ | ⟨hnot, c, hc, htr, rfl⟩
      · simp [(nestedDelta_eq_some_iff _ _).mpr ⟨dd, h1, h2, h3, rfl⟩]
      · simp [(nestedDelta_eq_none_iff _).mpr hnot, hc, htr]

/-- Whether a decoded trace contains a `done` event. -/
def hasDoneEv (l : List StreamEvent) : Bool :=
  l.any fun e =>
    match e with
    | .done => true
    | .delta _ => false

/-- A completion exchange that fails during the streaming stage without a
terminator having been decoded: an HTTP error status, a request error, or a
response stream that errors out with no `done` among its decoded events. -/
def failingSend : SendOutcome → Bool
  | .httpError _ _ => true
  | .reqError _ => true
  | .stream chunks endErr => endErr.isSome && !hasDoneEv (decodeData chunks)

/-- Folding the panel handlers over chunk callbacks followed by one error
callback posts the chunk events, then one error event, and never touches the
message history. -/
theorem applyCbs_chunks_err (st : PanelState) (fr : List Char) (l : List CbEvent)
    (m : List Char) (h : ∀ c ∈ l, ∃ t, c = CbEvent.chunk t) :
    ∃ cevs, (∀ e ∈ cevs, ∃ t, e = DisplayEvent.chunk t) ∧
      applyCbs st fr (l ++ [CbEvent.err m]) = (st, cevs ++ [DisplayEvent.error (errFmt m)]) := by
  induction l generalizing fr with
  | nil => exact ⟨[], by simp, by simp [applyCbs]⟩
  | cons c l ih =>
    rcases h c (List.mem_cons_self c l) with ⟨t, rfl⟩
    rcases ih (fr ++ jsStringOf t) (fun c hc => h c (List.mem_cons_of_mem _ hc)) with
      ⟨cevs, hc1, hc2⟩
    refine ⟨DisplayEvent.chunk t :: cevs, ?_, ?_⟩
    · intro e he
      rcases List.mem_cons.mp he with rfl | he
      · exact ⟨t, rfl⟩
      · exact hc1 e he
    · simp [applyCbs, hc2]

/-- C8: when the streaming stage fails (HTTP status at least 400, connection
error, or a stream failure with no terminator decoded), the invocation ends
with exactly one `error` display event, any intervening events are `chunk`
events, and the history gains only the user message — no assistant message,
partial or otherwise, is appended. -/
theorem stream_error_no_history_mutation (store : SecretStore) (st : PanelState) (env : Env)
    (text : List Char) (h1 : hasCookie store = true) (h2 : jsTrim text ≠ [])
    (h3 : jsTruthyO st.orgId = true) (h4 : jsTruthyO st.conversationId = true)
    (h5 : failingSend env.sendOutcome = true) :
    ∃ cevs m,
      (∀ e ∈ cevs, ∃ t, e = DisplayEvent.chunk t) ∧
      handleUserMessage store st env text =
        ({st with messages := st.messages ++ [⟨Role.user, text⟩]},
         [DisplayEvent.userMessage text, DisplayEvent.thinking,
          DisplayEvent.startAssistantMessage] ++ cevs ++ [DisplayEvent.error m],
         [NetCall.completion]) := by
  rcases hjt : jsTrim text with _ | ⟨c0, cs0⟩
  · exact absurd hjt h2
  have hmain : handleUserMessage store st env text =
      ((applyCbs {st with messages := st.messages ++ [⟨Role.user, text⟩]} []
          (sendMessageCbs env.sendOutcome)).1,
       [DisplayEvent.userMessage text, DisplayEvent.thinking,
        DisplayEvent.startAssistantMessage] ++
         (applyCbs {st with messages := st.messages ++ [⟨Role.user, text⟩]} []
            (sendMessageCbs env.sendOutcome)).2,
       [NetCall.completion]) := by
    simp [handleUserMessage, hjt, h1, h3, h4, convStage, streamStage,
      sendMessageRun_ok store env.sendOutcome h1]
  cases houtcome : env.sendOutcome with
  | httpError code body =>
    refine ⟨[], errFmt ("HTTP ".toList ++ (toString code).toList ++ ": ".toList ++ body),
      by simp, ?_⟩
    rw [hmain, houtcome]
    simp [sendMessageCbs, applyCbs]
  | reqError m0 =>
    refine ⟨[], errFmt m0, by simp, ?_⟩
    rw [hmain, houtcome]
    simp [sendMessageCbs, applyCbs]
  | stream chunks endErr =>
    rw [houtcome] at h5
    simp [failingSend] at h5
    obtain ⟨m0, hm0⟩ := Option.isSome_iff_exists.mp h5.1
    have hall : ∀ cb ∈ (decodeData chunks).map sendMessageCbs.cbOfEvent,
        ∃ t, cb = CbEvent.chunk t := by
      intro cb hcb
      rcases List.mem_map.mp hcb with ⟨e, he, rfl⟩
      cases e with
      | delta t => exact ⟨t, rfl⟩
      | done =>
        have : hasDoneEv (decodeData chunks) = true :=
          List.any_eq_true.mpr ⟨StreamEvent.done, he, rfl⟩
        rw [h5.2] at this
        exact Bool.noConfusion this
    rcases applyCbs_chunks_err {st with messages := st.messages ++ [⟨Role.user, text⟩]} []
        ((decodeData chunks).map sendMessageCbs.cbOfEvent) m0 hall with ⟨cevs, hcevs, happ⟩
    refine ⟨cevs, errFmt m0, hcevs, ?_⟩
    rw [hmain, houtcome, hm0]
    simp [sendMessageCbs, happ]

/-- Witness for `stream_error_no_history_mutation`: cached bootstrap, HTTP
500 on the completion call. -/
theorem stream_error_no_history_mutation_witness :
    ∃ cevs m,
      (∀ e ∈ cevs, ∃ t, e = DisplayEvent.chunk t) ∧
      handleUserMessage (setCookie "k".toList)
        ⟨[], some (Json.str "org-1".toList), some (Json.str "conv-1".toList)⟩
        ⟨.ok [], .ok [], .httpError 500 "boom".toList⟩ "hi".toList =
        (⟨[⟨Role.user, "hi".toList⟩], some (Json.str "org-1".toList),
           some (Json.str "conv-1".toList)⟩,
         [DisplayEvent.userMessage "hi".toList, DisplayEvent.thinking,
          DisplayEvent.startAssistantMessage] ++ cevs ++ [DisplayEvent.error m],
         [NetCall.completion]) :=
  stream_error_no_history_mutation _ _ _ _ rfl (by decide) rfl rfl rfl

/-- Splitting never yields an empty list of parts. -/
theorem splitNl_ne_nil (s : List Char) : splitNl s ≠ [] := by
  cases s with
  | nil => simp [splitNl]
  | cons c cs =>
    simp only [splitNl]
    split
    · simp
    · split <;> simp

/-- A newline-free string splits into itself alone. -/
theorem splitNl_no_nl (s : List Char) (h : '\n' ∉ s) : splitNl s = [s] := by
  induction s with
  | nil => rfl
  | cons c cs ih =>
    have hc : ¬ c = '\n' := fun hh => h (hh ▸ List.mem_cons_self c cs)
    have ihh := ih (fun hm => h (List.mem_cons_of_mem c hm))
    simp [splitNl, hc, ihh]

/-- Every part produced by splitting is newline-free. -/
theorem mem_splitNl_no_nl (s : List Char) (l : List Char) (hl : l ∈ splitNl s) : '\n' ∉ l := by
  induction s generalizing l with
  | nil =>
    simp [splitNl] at hl
    subst hl
    simp
  | cons c cs ih =>
    by_cases hc : c = '\n'
    · subst hc
      simp only [splitNl, if_pos rfl] at hl
      rcases List.mem_cons.mp hl with rfl | hl
      · simp
      · exact ih l hl
    · simp only [splitNl, if_neg hc] at hl
      rcases hsc : splitNl cs with _ | ⟨h0, t⟩
      · exact absurd hsc (splitNl_ne_nil cs)
      · rw [hsc] at hl
        rcases List.mem_cons.mp hl with rfl | hl
        · intro hmem
          rcases List.mem_cons.mp hmem with hh | hh
          · exact hc hh.symm
          · exact ih h0 (hsc ▸ List.mem_cons_self h0 t) hh
        · exact ih l (hsc ▸ List.mem_cons_of_mem h0 hl)

/-- The popped last part is one of the parts. -/
theorem popLast_mem (xs : List (List Char)) (h : xs ≠ []) : popLast xs ∈ xs := by
  induction xs with
  | nil => exact absurd rfl h
  | cons x xs ih =>
    cases xs with
    | nil => simp [popLast]
    | cons y t => exact List.mem_cons_of_mem x (ih (by simp))

/-- The retained fragment is newline-free. -/
theorem restOf_no_nl (s : List Char) : '\n' ∉ restOf s :=
  mem_splitNl_no_nl s _ (popLast_mem _ (splitNl_ne_nil s))

/-- A newline-free buffer has no complete lines. -/
theorem linesOf_no_nl (s : List Char) (h : '\n' ∉ s) : linesOf s = [] := by
  simp [linesOf, splitNl_no_nl s h, frontLines]

/-- frontLines distributes over an append with a non-empty right part. -/
theorem frontLines_append (p q : List (List Char)) (hq : q ≠ []) :
    frontLines (p ++ q) = p ++ frontLines q := by
  induction p with
  | nil => rfl
  | cons x p ih =>
    rcases hpq : p ++ q with _ | ⟨y, t⟩
    · rcases List.append_eq_nil.mp hpq with ⟨-, rfl⟩
      exact absurd rfl hq
    · calc frontLines (x :: p ++ q) = x :: frontLines (p ++ q) := by
            rw [List.cons_append, hpq]
            rfl
        _ = x :: (p ++ frontLines q) := by rw [ih]
        _ = (x :: p) ++ frontLines q := rfl

/-- popLast skips over a left part when the right part is non-empty. -/
theorem popLast_append (p q : List (List Char)) (hq : q ≠ []) :
    popLast (p ++ q) = popLast q := by
  induction p with
  | nil => rfl
  | cons x p ih =>
    rcases hpq : p ++ q with _ | ⟨y, t⟩
    · rcases List.append_eq_nil.mp hpq with ⟨-, rfl⟩
      exact absurd rfl hq
    · calc popLast (x :: p ++ q) = popLast (p ++ q) := by
            rw [List.cons_append, hpq]
            rfl
        _ = popLast q := ih

/-- The key framing identity: splitting an appended stream equals the
complete lines of the left part followed by the split of the retained
fragment glued to the right part. -/
theorem splitNl_append (a b : List Char) :
    splitNl (a ++ b) = frontLines (splitNl a) ++ splitNl (popLast (splitNl a) ++ b) := by
  induction a with
  | nil => simp [splitNl, frontLines, popLast]
  | cons c a ih =>
    by_cases hc : c = '\n'
    · subst hc
      rcases hsa : splitNl a with _ | ⟨h0, t⟩
      · exact absurd hsa (splitNl_ne_nil a)
      · have e1 : splitNl ('\n' :: (a ++ b)) = [] :: splitNl (a ++ b) := by simp [splitNl]
        have e2 : splitNl ('\n' :: a) = [] :: splitNl a := by simp [splitNl]
        rw [List.cons_append, e1, e2, ih, hsa]
        rfl
    · rcases hsa : splitNl a with _ | ⟨h0, t⟩
      · exact absurd hsa (splitNl_ne_nil a)
      · have e1 : splitNl (c :: (a ++ b)) =
            match splitNl (a ++ b) with
            | [] => [[c]]
            | h :: t => (c :: h) :: t := by simp [splitNl, hc]
        have e2 : splitNl (c :: a) = (c :: h0) :: t := by simp [splitNl, hc, hsa]
        cases t with
        | nil =>
          rw [List.cons_append, e1, ih, hsa, e2]
          rcases hsb : splitNl (h0 ++ b) with _ | ⟨g, u⟩
          · exact absurd hsb (splitNl_ne_nil _)
          · have e3 : splitNl (c :: (h0 ++ b)) = (c :: g) :: u := by
              simp [splitNl, hc, hsb]
            simp [frontLines, popLast, hsb, e3]
        | cons t1 t' =>
          rw [List.cons_append, e1, ih, hsa, e2]
          have hfq : frontLines ((c :: h0) :: t1 :: t') = (c :: h0) :: frontLines (t1 :: t') := rfl
          have hpq : popLast ((c :: h0) :: t1 :: t') = popLast (t1 :: t') := rfl
          rw [hfq, hpq]
          rfl

/-- Complete lines accumulate chunk by chunk. -/
theorem linesOf_append (a b : List Char) :
    linesOf (a ++ b) = linesOf a ++ linesOf (restOf a ++ b) := by
  unfold linesOf restOf
  rw [splitNl_append a b, frontLines_append _ _ (splitNl_ne_nil _)]

/-- The retained fragment of an appended stream only depends on the previous
fragment and the new data. -/
theorem restOf_append (a b : List Char) :
    restOf (a ++ b) = restOf (restOf a ++ b) := by
  unfold restOf
  rw [splitNl_append a b, popLast_append _ _ (splitNl_ne_nil _)]

/-- frontLines only keeps elements of the list. -/
theorem frontLines_subset (xs : List (List Char)) (l : List Char) (hl : l ∈ frontLines xs) :
    l ∈ xs := by
  induction xs with
  | nil => exact absurd hl (by simp [frontLines])
  | cons x xs ih =>
    cases xs with
    | nil => exact absurd hl (by simp [frontLines])
    | cons y t =>
      rcases List.mem_cons.mp hl with rfl | hl
      · exact List.mem_cons_self _ _
      · exact List.mem_cons_of_mem x (ih hl)

/-- Membership in frontLines is preserved by extending on the right. -/
theorem mem_frontLines_append_left (xs ys : List (List Char)) (l : List Char)
    (hl : l ∈ frontLines xs) : l ∈ frontLines (xs ++ ys) := by
  cases ys with
  | nil => simpa using hl
  | cons y t =>
    rw [frontLines_append xs (y :: t) (by simp)]
    exact List.mem_append_left _ (frontLines_subset xs l hl)

/-- Membership in frontLines is preserved by extending on the left. -/
theorem mem_frontLines_append_right (xs ys : List (List Char)) (l : List Char)
    (hl : l ∈ frontLines ys) : l ∈ frontLines (xs ++ ys) := by
  cases ys with
  | nil => exact absurd hl (by simp [frontLines])
  | cons y t =>
    rw [frontLines_append xs (y :: t) (by simp)]
    exact List.mem_append_right _ hl

/-- The events one complete line contributes. -/
def lineEvents (l : List Char) : List StreamEvent :=
  match lineAct l with
  | .stop => [.done]
  | .emit e => [e]
  | .skip => []

/-- The events a list of complete lines contributes, in order. -/
def allEvents : List (List Char) → List StreamEvent
  | [] => []
  | l :: ls => lineEvents l ++ allEvents ls

/-- allEvents distributes over append. -/
theorem allEvents_append (xs ys : List (List Char)) :
    allEvents (xs ++ ys) = allEvents xs ++ allEvents ys := by
  induction xs with
  | nil => rfl
  | cons x xs ih => simp [allEvents, ih]

/-- When no line before the last is the sentinel, the source's line loop
emits exactly the per-line events in order (a sentinel in last position
contributes its `done` and drops nothing). -/
theorem runLines_eq_allEvents (ls : List (List Char))
    (h : ∀ l ∈ frontLines ls, isStopLine l = false) :
    (runLines ls).1 = allEvents ls := by
  induction ls with
  | nil => rfl
  | cons l ls ih =>
    cases ls with
    | nil =>
      cases hact : lineAct l <;>
        simp [runLines, allEvents, lineEvents, hact]
    | cons l2 ls2 =>
      have hstop : isStopLine l = false := h l (List.mem_cons_self _ _)
      have hrest : ∀ x ∈ frontLines (l2 :: ls2), isStopLine x = false := fun x hx =>
        h x (List.mem_cons_of_mem l hx)
      cases hact : lineAct l with
      | stop =>
        rw [isStopLine, hact] at hstop
        exact Bool.noConfusion hstop
      | emit e =>
        rw [show (runLines (l :: l2 :: ls2)).1 = e :: (runLines (l2 :: ls2)).1 from by
              simp [runLines, hact],
            ih hrest]
        simp [allEvents, lineEvents, hact]
      | skip =>
        rw [show (runLines (l :: l2 :: ls2)).1 = (runLines (l2 :: ls2)).1 from by
              simp [runLines, hact],
            ih hrest]
        simp [allEvents, lineEvents, hact]

/-- The chunked decoder emits exactly the per-line events of the whole
accumulated stream whenever no sentinel line occurs before the last complete
line. -/
theorem runChunks_eq_allEvents (chunks : List (List Char)) (buffer : List Char)
    (hb : '\n' ∉ buffer)
    (H : ∀ l ∈ frontLines (linesOf (buffer ++ chunks.flatten)), isStopLine l = false) :
    runChunks buffer chunks = allEvents (linesOf (buffer ++ chunks.flatten)) := by
  induction chunks generalizing buffer with
  | nil =>
    rw [show ([] : List (List Char)).flatten = [] from rfl, List.append_nil,
      linesOf_no_nl buffer hb]
    rfl
  | cons c cs ih =>
    have hjoin : buffer ++ (c :: cs).flatten = (buffer ++ c) ++ cs.flatten := by
      simp [List.flatten_cons, List.append_assoc]
    have hsplit : linesOf (buffer ++ (c :: cs).flatten) =
        linesOf (buffer ++ c) ++ linesOf (restOf (buffer ++ c) ++ cs.flatten) := by
      rw [hjoin, linesOf_append]
    have H1 : ∀ l ∈ frontLines (linesOf (buffer ++ c)), isStopLine l = false := by
      intro l hl
      apply H
      rw [hsplit]
      exact mem_frontLines_append_left _ _ _ hl
    have H2 : ∀ l ∈ frontLines (linesOf (restOf (buffer ++ c) ++ cs.flatten)),
        isStopLine l = false := by
      intro l hl
      apply H
      rw [hsplit]
      exact mem_frontLines_append_right _ _ _ hl
    calc runChunks buffer (c :: cs)
        = (runLines (linesOf (buffer ++ c))).1 ++ runChunks (restOf (buffer ++ c)) cs := by
          simp [runChunks, feedChunk]
      _ = allEvents (linesOf (buffer ++ c)) ++
            allEvents (linesOf (restOf (buffer ++ c) ++ cs.flatten)) := by
          rw [runLines_eq_allEvents _ H1, ih (restOf (buffer ++ c)) (restOf_no_nl _) H2]
      _ = allEvents (linesOf (buffer ++ (c :: cs).flatten)) := by
          rw [hsplit, allEvents_append]

/-- C2 fails on the code in full generality: the chunks below concatenate to
one SSE body containing a line after the sentinel, yet splitting at the line
boundary yields a second `done` event that the single-chunk feed does not
produce (the early `return` drops the second line only when it shares the
sentinel's chunk). -/
theorem chunk_split_changes_events_cex :
    (["data: [DONE]\n".toList, "data: [DONE]\n".toList] : List (List Char)).flatten =
      "data: [DONE]\ndata: [DONE]\n".toList ∧
    decodeData ["data: [DONE]\n".toList, "data: [DONE]\n".toList] ≠
      decodeData ["data: [DONE]\ndata: [DONE]\n".toList] := by
  refine ⟨rfl, fun h => ?_⟩
  have h2 := congrArg List.length h
  rw [show (decodeData ["data: [DONE]\n".toList, "data: [DONE]\n".toList]).length = 2 from rfl,
      show (decodeData ["data: [DONE]\ndata: [DONE]\n".toList]).length = 1 from rfl] at h2
  exact absurd h2 (by decide)

/-- C2 amended: for every SSE body in which the sentinel line, when present,
is the last complete line (every valid SSE body), and for every partition of
that body into chunks — including partitions splitting a line mid-way —
feeding the chunks one at a time yields exactly the same ordered event
sequence as feeding the whole body as a single chunk. -/
theorem chunk_boundary_independence (chunks : List (List Char))
    (H : ∀ l ∈ frontLines (linesOf chunks.flatten), isStopLine l = false) :
    decodeData chunks = decodeData [chunks.flatten] := by
  have h0 : ∀ l ∈ frontLines (linesOf ([] ++ chunks.flatten)), isStopLine l = false := by
    simpa using H
  have h1 : decodeData chunks = allEvents (linesOf chunks.flatten) := by
    have := runChunks_eq_allEvents chunks [] (by simp) h0
    simpa [decodeData] using this
  have h2 : decodeData [chunks.flatten] = allEvents (linesOf chunks.flatten) := by
    show runChunks [] [chunks.flatten] = _
    have hfc : runChunks [] [chunks.flatten] = (runLines (linesOf ([] ++ chunks.flatten))).1 ++ [] := by
      simp [runChunks, feedChunk]
    rw [hfc, List.append_nil, List.nil_append]
    exact runLines_eq_allEvents _ H
  rw [h1, h2]

/-- Witness for `chunk_boundary_independence`: a three-chunk partition of a
two-line body, splitting both the JSON payload and the `data: ` prefix
mid-way. -/
theorem chunk_boundary_independence_witness :
    (∀ l ∈ frontLines (linesOf (["data: \x7b\"completion\":\"H".toList, "i\"\x7d\nda".toList,
        "ta: [DONE]\n".toList] : List (List Char)).flatten), isStopLine l = false) ∧
    decodeData ["data: \x7b\"completion\":\"H".toList, "i\"\x7d\nda".toList,
        "ta: [DONE]\n".toList] =
      decodeData [(["data: \x7b\"completion\":\"H".toList, "i\"\x7d\nda".toList,
        "ta: [DONE]\n".toList] : List (List Char)).flatten] :=
  ⟨by decide, chunk_boundary_independence _ (by decide)⟩

end ClaudeWebChat
